import Mathlib

/-!
Verification of the `hyper_fetch` job/video search core against its
natural-language specification.

The Rust sources under `src/services/` are shallowly embedded here:

* Rust `String` / `&str` values are modelled as `RStr := List Char`
  (a Rust string is valid UTF-8, so its character sequence determines it);
  where the source manipulates raw bytes (the internship lookback slice in
  `extract_job_type`) we drop to the UTF-8 byte sequence `ByteStr := List Nat`.
* `f64` salary values are modelled as `ℚ`; every number appearing in the
  specification and in the regexes' reachable captures of interest is exactly
  representable, and `f64` rounding is out of scope for these claims.
* ASCII semantics are used for `to_lowercase`, whitespace and the regex
  classes `\w`/`\s`/`\d` (the specification's vocabulary and the concrete
  inputs below are ASCII except where multi-byte input is the point, and
  there the difference is irrelevant to the match positions involved).
* fallible upstream I/O (reqwest + serde) is a parameter: each fetch
  receives `Except Unit (List Json)` — the parsed JSON array or a
  network/status/parse failure; a possible Rust panic is modelled by an
  outer `Option` (`none` = panic).
* `seq_contains`, `isPrefixOf` etc. mirror Rust's `str::contains`,
  `str::starts_with` on the character level.
-/

/-! ## Rust string model -/

/-- Model of a Rust `String`/`&str`: its character sequence. -/
abbrev RStr : Type := List Char

/-- Embed a Lean string literal. -/
def strOf (s : String) : RStr := s.data

/-- ASCII model of Rust `str::to_lowercase`. -/
def toLowerRS (s : RStr) : RStr :=
  s.map fun c => if 'A' ≤ c ∧ c ≤ 'Z' then Char.ofNat (c.toNat + 32) else c

/-- Rust `str::starts_with`. -/
def startsWithRS (s pat : RStr) : Bool := pat.isPrefixOf s

/-- Rust `str::contains` (substring search), generic over the element type. -/
def seq_contains {α : Type} [BEq α] (hay pat : List α) : Bool :=
  if pat.isPrefixOf hay then true
  else
    match hay with
    | [] => false
    | _ :: t => seq_contains t pat

/-- ASCII model of Rust `char::is_whitespace`. -/
def isWS (c : Char) : Bool :=
  decide (c.toNat = 32 ∨ c.toNat = 9 ∨ c.toNat = 10 ∨ c.toNat = 13 ∨ c.toNat = 12 ∨ c.toNat = 11)

/-- Rust `str::trim`. -/
def trimRS (s : RStr) : RStr :=
  ((s.dropWhile isWS).reverse.dropWhile isWS).reverse

theorem isPrefixOf_length_le {α : Type} [BEq α] [LawfulBEq α] {p s : List α}
    (h : p.isPrefixOf s = true) : p.length ≤ s.length :=
  (List.isPrefixOf_iff_prefix.mp h).length_le

/-- Worker for `trimStartMatchesRS`; the fuel only bounds the number of
strips (each strip of a non-empty pattern shortens the string, so
`s.length + 1` steps always suffice). -/
def trimStartAux (fuel : Nat) (s pat : RStr) : RStr :=
  match fuel with
  | 0 => s
  | fuel + 1 =>
    if pat ≠ [] ∧ pat.isPrefixOf s then trimStartAux fuel (s.drop pat.length) pat
    else s

/-- Rust `str::trim_start_matches`: repeatedly removes the pattern from the
front as long as it is a prefix. -/
def trimStartMatchesRS (s pat : RStr) : RStr := trimStartAux (s.length + 1) s pat

/-- Rust `str::split_whitespace`: maximal runs of non-whitespace. -/
def splitWS (s : RStr) : List RStr :=
  (s.splitOnP isWS).filter (fun p => p ≠ [])

/-- Rust `str::split(',')` (keeps empty fields). -/
def splitComma (s : RStr) : List RStr := s.splitOn ','

/-- Rust `str::replace(" ", "_")` as used in the cache key. -/
def replaceSpaceUnderscore (s : RStr) : RStr :=
  s.map fun c => if c = ' ' then '_' else c

/-- Decimal rendering of a number, as Rust `format!("{}", n)` for `u32`. -/
def natStr (n : Nat) : RStr := (Nat.repr n).data

/-- Rendering of a bool, as Rust `format!("{}", b)`. -/
def boolStr (b : Bool) : RStr := if b then strOf "true" else strOf "false"

/-! ## Cache store (`src/services/cache.rs`)

The store keeps serialized payloads; for like-typed reads the serde
round-trip is the identity, so the payload is stored directly at type `V`.
Timestamps are seconds since the epoch (`Nat`); the `u64` subtraction
`now - entry.timestamp` is modelled by truncated `Nat` subtraction. -/

/-- `CacheEntry { data, timestamp }` from `cache.rs`. -/
structure CacheEntry (V : Type) where
  data : V
  timestamp : Nat
deriving DecidableEq

/-- The keyspace of the global `CACHE` map. -/
def CacheMap (V : Type) : Type := RStr → Option (CacheEntry V)

/-- `CACHE_DURATION`: 4 hours in seconds. -/
def CACHE_DURATION : Nat := 4 * 60 * 60

/-- `get_cache` from `cache.rs`: a present entry is returned only while
`now - timestamp < CACHE_DURATION`; expired entries are left in place. -/
def get_cache {V : Type} (cache : CacheMap V) (key : RStr) (now : Nat) : Option V :=
  match cache key with
  | some entry => if now - entry.timestamp < CACHE_DURATION then some entry.data else none
  | none => none

/-- `set_cache` from `cache.rs`: unconditional insert/overwrite. -/
def set_cache {V : Type} (cache : CacheMap V) (key : RStr) (data : V) (now : Nat) : CacheMap V :=
  fun k => if k = key then some ⟨data, now⟩ else cache k

/-- The freshly initialised (empty) cache. -/
def emptyCache {V : Type} : CacheMap V := fun _ => none

/-! ## Query normalizer (`handle_job_scraper`, job_service.rs lines 34-52) -/

/-- Trending-mode detection: the lowercased query starts with
`"trending:"` or `"trending "`. -/
def is_trending (query : RStr) : Bool :=
  startsWithRS (toLowerRS query) (strOf "trending:") ||
  startsWithRS (toLowerRS query) (strOf "trending ")

/-- The cleaned query term: in trending mode the matching literal prefix is
stripped with `trim_start_matches` (case-sensitive, repeated) and the result
trimmed; otherwise the query is returned unchanged. -/
def clean_query (query : RStr) : RStr :=
  if is_trending query then
    if startsWithRS (toLowerRS query) (strOf "trending:") then
      trimRS (trimStartMatchesRS query (strOf "trending:"))
    else
      trimRS (trimStartMatchesRS query (strOf "trending "))
  else query

/-- The cache key of `handle_job_scraper`:
`format!("jobs_{}_{}_{}_{}_{}", clean_query.to_lowercase().replace(" ","_"),
limit, location.to_lowercase().replace(" ","_"), remote_flag,
job_type.unwrap_or("").to_lowercase().replace(" ","_"))`. -/
def job_cache_key (query : RStr) (limit : Nat) (location : RStr)
    (remote_flag : Bool) (job_type : Option RStr) : RStr :=
  strOf "jobs_" ++ replaceSpaceUnderscore (toLowerRS (clean_query query)) ++
  strOf "_" ++ natStr limit ++
  strOf "_" ++ replaceSpaceUnderscore (toLowerRS location) ++
  strOf "_" ++ boolStr remote_flag ++
  strOf "_" ++ replaceSpaceUnderscore (toLowerRS (job_type.getD []))

/-! ## Byte-level text model for `extract_job_type` (job_service.rs 505-548)

`extract_job_type` slices its (lowercased) text by *byte* offsets produced by
regex matches; Rust panics when a slice boundary is not a char boundary.
The text is therefore modelled as its UTF-8 byte sequence, and the function
returns `none` exactly when the Rust original panics. -/

/-- UTF-8 byte sequence model of a Rust string. -/
abbrev ByteStr : Type := List Nat

/-- UTF-8 encoding of one scalar value. -/
def charUtf8 (c : Char) : List Nat :=
  let n := c.toNat
  if n < 0x80 then [n]
  else if n < 0x800 then [0xC0 + n / 64, 0x80 + n % 64]
  else if n < 0x10000 then [0xE0 + n / 4096, 0x80 + (n / 64) % 64, 0x80 + n % 64]
  else [0xF0 + n / 0x40000, 0x80 + (n / 4096) % 64, 0x80 + (n / 64) % 64, 0x80 + n % 64]

/-- UTF-8 bytes of a character-level string. -/
def rsToBytes (s : RStr) : ByteStr := (s.map charUtf8).flatten

/-- UTF-8 bytes of a Lean string literal. -/
def bytesOfS (s : String) : ByteStr := rsToBytes (strOf s)

/-- ASCII model of `str::to_lowercase` on bytes (non-ASCII bytes are
continuation/lead bytes ≥ 0x80 and are left unchanged). -/
def toLowerBytes (bs : ByteStr) : ByteStr :=
  bs.map fun b => if 65 ≤ b ∧ b ≤ 90 then b + 32 else b

/-- ASCII model of the regex class `\w` (word character). -/
def wordByte (b : Nat) : Bool :=
  decide ((48 ≤ b ∧ b ≤ 57) ∨ (65 ≤ b ∧ b ≤ 90) ∨ (97 ≤ b ∧ b ≤ 122) ∨ b = 95)

/-- ASCII model of the regex class `\s`. -/
def spaceByte (b : Nat) : Bool :=
  decide (b = 32 ∨ b = 9 ∨ b = 10 ∨ b = 13 ∨ b = 12 ∨ b = 11)

/-- Is the byte at index `i` a word byte (out of range counts as non-word)? -/
def wordAtIdx (bs : ByteStr) (i : Nat) : Bool :=
  match bs[i]? with
  | some b => wordByte b
  | none => false

/-- The regex word boundary `\b` at byte offset `i`. -/
def byteBoundary (bs : ByteStr) (i : Nat) : Bool :=
  (if i = 0 then false else wordAtIdx bs (i - 1)) != wordAtIdx bs i

/-- Does `pat` occur in `bs` starting at byte offset `i`? -/
def bytesAt (bs : ByteStr) (i : Nat) (pat : ByteStr) : Bool :=
  pat.isPrefixOf (bs.drop i)

/-- Index of the first non-`\s` byte at or after `i` (greedy `\s*`). -/
def skipSpacesFrom (bs : ByteStr) (i : Nat) : Nat :=
  i + ((bs.drop i).takeWhile spaceByte).length

/-- A match of `\bfull(?:-|\s)?time\b` starting at byte `i`. -/
def matchFullTimeAt (bs : ByteStr) (i : Nat) : Bool :=
  byteBoundary bs i && bytesAt bs i (bytesOfS "full") &&
    ((bytesAt bs (i + 4) (bytesOfS "time") && byteBoundary bs (i + 8)) ||
     (match bs[i + 4]? with
      | some c => (c == 45 || spaceByte c) && bytesAt bs (i + 5) (bytesOfS "time") &&
          byteBoundary bs (i + 9)
      | none => false))

/-- A match of `[\d+]\s*years'? experience` starting at byte `i`. -/
def matchYearsExpAt (bs : ByteStr) (i : Nat) : Bool :=
  (match bs[i]? with
   | some c => decide ((48 ≤ c ∧ c ≤ 57) ∨ c = 43)
   | none => false) &&
  (let j := skipSpacesFrom bs (i + 1)
   bytesAt bs j (bytesOfS "years") &&
   (let k := j + 5
    let k2 := if bs[k]? == some 39 then k + 1 else k
    bytesAt bs k2 (bytesOfS " experience")))

/-- `re_full_time.is_match`: `\bfull(?:-|\s)?time\b|fully remote position|`
`competitive salary|benefits package|[\d+]\s*years'? experience`. -/
def isMatchFullTime (bs : ByteStr) : Bool :=
  (List.range (bs.length + 1)).any fun i =>
    matchFullTimeAt bs i ||
    bytesAt bs i (bytesOfS "fully remote position") ||
    bytesAt bs i (bytesOfS "competitive salary") ||
    bytesAt bs i (bytesOfS "benefits package") ||
    matchYearsExpAt bs i

/-- A match of `\bpart(?:-|\s)?time\b` starting at byte `i`. -/
def matchPartTimeAt (bs : ByteStr) (i : Nat) : Bool :=
  byteBoundary bs i && bytesAt bs i (bytesOfS "part") &&
    ((bytesAt bs (i + 4) (bytesOfS "time") && byteBoundary bs (i + 8)) ||
     (match bs[i + 4]? with
      | some c => (c == 45 || spaceByte c) && bytesAt bs (i + 5) (bytesOfS "time") &&
          byteBoundary bs (i + 9)
      | none => false))

/-- `re_part_time.is_match`. -/
def isMatchPartTime (bs : ByteStr) : Bool :=
  (List.range (bs.length + 1)).any (matchPartTimeAt bs)

/-- A match of `\bcontract(?:or)?\b` starting at byte `i`. -/
def matchContractAt (bs : ByteStr) (i : Nat) : Bool :=
  byteBoundary bs i && bytesAt bs i (bytesOfS "contract") &&
    ((bytesAt bs (i + 8) (bytesOfS "or") && byteBoundary bs (i + 10)) ||
     byteBoundary bs (i + 8))

/-- `re_contract.is_match`. -/
def isMatchContract (bs : ByteStr) : Bool :=
  (List.range (bs.length + 1)).any (matchContractAt bs)

/-- A match of `\bintern(?:ship)?\b` starting at byte `i` (valid matches of
this pattern never overlap, so these starts are exactly the starts that
`find_iter` reports). -/
def matchInternAt (bs : ByteStr) (i : Nat) : Bool :=
  byteBoundary bs i && bytesAt bs i (bytesOfS "intern") &&
    ((bytesAt bs (i + 6) (bytesOfS "ship") && byteBoundary bs (i + 12)) ||
     byteBoundary bs (i + 6))

/-- A match of `\b(?:temporary|temp)\b` starting at byte `i`. -/
def matchTempAt (bs : ByteStr) (i : Nat) : Bool :=
  byteBoundary bs i &&
    ((bytesAt bs i (bytesOfS "temporary") && byteBoundary bs (i + 9)) ||
     (bytesAt bs i (bytesOfS "temp") && byteBoundary bs (i + 4)))

/-- `re_temp.is_match`. -/
def isMatchTemp (bs : ByteStr) : Bool :=
  (List.range (bs.length + 1)).any (matchTempAt bs)

/-- A match of `\bfreelance\b` starting at byte `i`. -/
def matchFreelanceAt (bs : ByteStr) (i : Nat) : Bool :=
  byteBoundary bs i && bytesAt bs i (bytesOfS "freelance") && byteBoundary bs (i + 9)

/-- `re_freelance.is_match`. -/
def isMatchFreelance (bs : ByteStr) : Bool :=
  (List.range (bs.length + 1)).any (matchFreelanceAt bs)

/-- Is byte offset `i` a UTF-8 char boundary (not a continuation byte)? -/
def charBoundaryAt (bs : ByteStr) (i : Nat) : Bool :=
  match bs[i]? with
  | some b => !decide (128 ≤ b ∧ b < 192)
  | none => true

/-- The internship negation scan (job_service.rs 529-534): for each match
start `i` in order, slice the 20 bytes before it and test for the negation
phrase. Slicing `&text[i-20..i]` panics (`none`) when `i - 20` is not a char
boundary; the closure returns `true` (short-circuiting `any`) when the
negation phrase is absent. -/
def internScan (bs : ByteStr) : List Nat → Option Bool
  | [] => some false
  | i :: rest =>
    let lo := if 20 ≤ i then i - 20 else 0
    if charBoundaryAt bs lo then
      if seq_contains ((bs.drop lo).take (i - lo)) (bytesOfS "not hiring associate/") then
        internScan bs rest
      else some true
    else none

/-- `extract_job_type` (job_service.rs 505-548) on the UTF-8 bytes of the
input text; `none` models the Rust panic in the internship lookback. -/
def extract_job_type (text : ByteStr) : Option (Option RStr) :=
  let t := toLowerBytes text
  if isMatchFullTime t then some (some (strOf "Full-time"))
  else if isMatchPartTime t then some (some (strOf "Part-time"))
  else if isMatchContract t then some (some (strOf "Contract"))
  else
    match internScan t ((List.range (t.length + 1)).filter (matchInternAt t)) with
    | none => none
    | some true => some (some (strOf "Internship"))
    | some false =>
      if isMatchTemp t then some (some (strOf "Temporary"))
      else if isMatchFreelance t then some (some (strOf "Freelance"))
      else some none

/-! ## Salary parsing (`parse_salary`, job_service.rs 551-580)

The two regexes
`\$(\d+(?:,\d+)*(?:\.\d+)?)\s*(?:-|\s*to\s*)\s*\$?(\d+(?:,\d+)*(?:\.\d+)?)`
and `\$(\d+(?:,\d+)*(?:\.\d+)?)` are deterministic on their reachable inputs
(each greedy sub-match is forced), so they are embedded as the direct
scanners below; `captures` picks the leftmost start at which the whole
pattern matches. `f64` values are modelled as `ℚ`. -/

/-- Digit character test (`\d`). -/
def isDigitCh (c : Char) : Bool := decide ('0' ≤ c ∧ c ≤ '9')

theorem length_dropWhile_le {α : Type} (p : α → Bool) (l : List α) :
    (l.dropWhile p).length ≤ l.length := by
  induction l with
  | nil => simp [List.dropWhile]
  | cons a t ih =>
    by_cases h : p a
    · simp [List.dropWhile, h]; omega
    · simp [List.dropWhile, h]

/-- Greedy `\d+` at the head: the digits taken and the rest. -/
def takeDigits (s : RStr) : RStr × RStr := (s.takeWhile isDigitCh, s.dropWhile isDigitCh)

/-- Worker for `commaGroups`; each step consumes at least the comma, so
`s.length + 1` fuel always suffices. -/
def commaGroupsAux (fuel : Nat) (s : RStr) : RStr × RStr :=
  match fuel with
  | 0 => ([], s)
  | fuel + 1 =>
    match s with
    | ',' :: rest =>
      if rest.takeWhile isDigitCh = [] then ([], s)
      else
        let (more, rest2) := commaGroupsAux fuel (rest.dropWhile isDigitCh)
        (',' :: rest.takeWhile isDigitCh ++ more, rest2)
    | _ => ([], s)

/-- Greedy `(?:,\d+)*` at the head: the matched text and the rest. -/
def commaGroups (s : RStr) : RStr × RStr := commaGroupsAux (s.length + 1) s

/-- Greedy `\d+(?:,\d+)*(?:\.\d+)?` at the head: the full capture text and
the rest (`none` when no digit is present). -/
def matchNumber (s : RStr) : Option (RStr × RStr) :=
  let (ds, r1) := takeDigits s
  if ds = [] then none
  else
    let (grps, r2) := commaGroups r1
    match r2 with
    | '.' :: r3 =>
      let fs := r3.takeWhile isDigitCh
      let r4 := r3.dropWhile isDigitCh
      if fs = [] then some (ds ++ grps, r2) else some (ds ++ grps ++ '.' :: fs, r4)
    | _ => some (ds ++ grps, r2)

/-- The separator `\s*(?:-|\s*to\s*)\s*` at the head: the rest after it. -/
def matchSep (s : RStr) : Option RStr :=
  match s.dropWhile isWS with
  | '-' :: r => some (r.dropWhile isWS)
  | 't' :: 'o' :: r => some (r.dropWhile isWS)
  | _ => none

/-- The whole range pattern anchored at the head of `s`: the two capture
texts, or `none`. -/
def matchRangeAt (s : RStr) : Option (RStr × RStr) :=
  match s with
  | '$' :: r =>
    match matchNumber r with
    | some (c1, r1) =>
      match matchSep r1 with
      | some r2 =>
        let r2' := match r2 with
          | '$' :: rr => rr
          | _ => r2
        match matchNumber r2' with
        | some (c2, _) => some (c1, c2)
        | none => none
      | none => none
    | none => none
  | _ => none

/-- `range_regex.captures`: leftmost match of the range pattern, returning
the two capture texts. (Also models the description-extraction regex of the
general fetch path, whose trailing `\s*(?:a year)?` affects neither the
existence of a match nor the captures.) -/
def findRangeCaps (s : RStr) : Option (RStr × RStr) :=
  match matchRangeAt s with
  | some c => some c
  | none =>
    match s with
    | [] => none
    | _ :: t => findRangeCaps t

/-- `single_regex.captures`: leftmost match of `\$(\d+(?:,\d+)*(?:\.\d+)?)`. -/
def findSingleCap (s : RStr) : Option RStr :=
  match s with
  | [] => none
  | '$' :: r =>
    match matchNumber r with
    | some (c, _) => some c
    | none => findSingleCap r
  | _ :: t => findSingleCap t

/-- Value of a digit string. -/
def digitsToNat (ds : RStr) : Nat := ds.foldl (fun a c => a * 10 + (c.toNat - 48)) 0

/-- `capture.replace(",", "").parse::<f64>()` on a capture produced by the
regexes above (digits, commas and at most one dot), as an exact rational. -/
def ratOfCapture (cap : RStr) : ℚ :=
  let cleaned := cap.filter (fun c => c ≠ ',')
  let ip := cleaned.takeWhile (fun c => c ≠ '.')
  let fp := (cleaned.dropWhile (fun c => c ≠ '.')).drop 1
  mkRat (digitsToNat ip * 10 ^ fp.length + digitsToNat fp) (10 ^ fp.length)

/-- Worker for `replaceAllRS`; each step consumes at least one character of
`s`, so `s.length + 1` fuel always suffices. -/
def replaceAllAux (fuel : Nat) (s pat rep : RStr) : RStr :=
  match fuel with
  | 0 => s
  | fuel + 1 =>
    if pat ≠ [] ∧ pat.isPrefixOf s then
      rep ++ replaceAllAux fuel (s.drop pat.length) pat rep
    else
      match s with
      | [] => []
      | c :: t => c :: replaceAllAux fuel t pat rep

/-- Rust `str::replace(pat, rep)`: replace every non-overlapping occurrence,
left to right. -/
def replaceAllRS (s pat rep : RStr) : RStr := replaceAllAux (s.length + 1) s pat rep

/-- `parse_salary` (job_service.rs 551-580): empty input is absent;
otherwise lowercase, delete `" a year"`, try the leftmost range match,
then the leftmost single dollar-anchored number, else absent. -/
def parse_salary (salary_text : RStr) : Option ℚ × Option ℚ :=
  if salary_text = [] then (none, none)
  else
    let t := replaceAllRS (toLowerRS salary_text) (strOf " a year") []
    match findRangeCaps t with
    | some (c1, c2) => (some (ratOfCapture c1), some (ratOfCapture c2))
    | none =>
      match findSingleCap t with
      | some c => (some (ratOfCapture c), some (ratOfCapture c))
      | none => (none, none)

/-- The general fetch path's per-record salary string (job_service.rs
258-271): the dedicated `salary` field, or, when that is absent or empty,
`format!("${} - ${}", ..)` around the captures of the dollar-anchored range
regex applied to the lowercased description, else the empty string. -/
def general_salary_text (salaryField : Option RStr) (descriptionLower : RStr) : RStr :=
  let st := salaryField.getD []
  if st = [] then
    match findRangeCaps descriptionLower with
    | some (c1, c2) => strOf "$" ++ c1 ++ strOf " - $" ++ c2
    | none => []
  else st

/-- The general fetch path's per-record salary bounds (job_service.rs 273). -/
def general_salary (salaryField : Option RStr) (descriptionLower : RStr) :
    Option ℚ × Option ℚ :=
  parse_salary (general_salary_text salaryField descriptionLower)

/-- The location-biased fetch path's per-record salary bounds
(job_service.rs 421-425): only the dedicated `salary` field is consulted. -/
def location_salary (salaryField : Option RStr) : Option ℚ × Option ℚ :=
  (salaryField.map parse_salary).getD (none, none)

/-! ## JSON values (serde_json::Value) -/

/-- `serde_json::Value`. -/
inductive Json where
  | null
  | jbool (b : Bool)
  | jnum (num : Int)
  | jstr (s : RStr)
  | jarr (items : List Json)
  | jobj (fields : List (RStr × Json))

/-- `Value::get(key)` for object keys (`None` on non-objects / missing key). -/
def Json.getField : Json → RStr → Option Json
  | .jobj fields, key => (fields.find? (fun p => p.1 == key)).map Prod.snd
  | _, _ => none

/-- `Value::get(index)` for array indices. -/
def Json.idx : Json → Nat → Option Json
  | .jarr items, i => items[i]?
  | _, _ => none

/-- `Value::as_str`. -/
def Json.asStr : Json → Option RStr
  | .jstr s => some s
  | _ => none

/-- `Value::as_array`. -/
def Json.asArr : Json → Option (List Json)
  | .jarr items => some items
  | _ => none

/-- Field access chain `job.get(k).and_then(|v| v.as_str())`. -/
def jsonStrField (j : Json) (key : String) : Option RStr :=
  (j.getField (strOf key)).bind Json.asStr

/-! ## Job-type classification (`determine_job_type`, job_service.rs 462-502) -/

/-- The explicit tag cascade of `determine_job_type` (first match in the
order full_time, contract, part_time, internship wins). -/
def tag_job_type (tags : List RStr) : Option RStr :=
  if tags.any (fun t => toLowerRS t == strOf "full_time" || toLowerRS t == strOf "full-time") then
    some (strOf "Full-time")
  else if tags.any (fun t => toLowerRS t == strOf "contract" || toLowerRS t == strOf "contractor") then
    some (strOf "Contract")
  else if tags.any (fun t => toLowerRS t == strOf "part_time" || toLowerRS t == strOf "part-time") then
    some (strOf "Part-time")
  else if tags.any (fun t => toLowerRS t == strOf "internship" || toLowerRS t == strOf "intern") then
    some (strOf "Internship")
  else none

/-- `determine_job_type` (job_service.rs 462-502): tags first; then the
free-text cascade on the description; then the professional-indicator
heuristic (note: the source tests the *literal* substring
`"years'? experience"` there). `none` models a panic propagated from
`extract_job_type`. -/
def determine_job_type (job : Json) : Option (Option RStr) :=
  let tagRes : Option RStr :=
    match (job.getField (strOf "tags")).bind Json.asArr with
    | some arr => tag_job_type (arr.filterMap Json.asStr)
    | none => none
  match tagRes with
  | some r => some (some r)
  | none =>
    let description := (jsonStrField job "description").getD []
    match extract_job_type (rsToBytes description) with
    | none => none
    | some (some jt) => some (some jt)
    | some none =>
      let dl := toLowerRS description
      if seq_contains dl (strOf "years'? experience") || seq_contains dl (strOf "senior") ||
         seq_contains dl (strOf "professional") || seq_contains dl (strOf "collaborative team") then
        some (some (strOf "Full-time"))
      else some none

/-! ## Job records and the two fetch paths (job_service.rs 134-459) -/

/-- The `Job` struct of job_service.rs. -/
structure Job where
  id : RStr
  title : RStr
  employer_name : RStr
  location : RStr
  description : RStr
  apply_url : RStr
  salary_min : Option ℚ
  salary_max : Option ℚ
  date_posted : Option RStr
  remote : Bool
  job_type : Option RStr
  employer_logo : Option RStr
deriving DecidableEq

/-- The filler-word list of the general fetch path. -/
def fillerWords : List RStr :=
  [strOf "jobs", strOf "trending", strOf "remote", strOf "work",
   strOf "career", strOf "opportunity"]

/-- The job-type filter shared by both fetch paths (case-insensitive
substring plus synonym rules). -/
def jobTypeFilter (determined : Option RStr) (wanted : Option RStr) : Bool :=
  match wanted with
  | none => true
  | some jt =>
    let jl := toLowerRS jt
    match determined with
    | none => false
    | some t =>
      let tl := toLowerRS t
      seq_contains tl jl ||
      (jl == strOf "full-time" && seq_contains tl (strOf "full")) ||
      (jl == strOf "part-time" && seq_contains tl (strOf "part")) ||
      (jl == strOf "contract" &&
        (seq_contains tl (strOf "contract") || seq_contains tl (strOf "freelance")))

/-- Relative-URL rewrite of the `url` field. -/
def rewriteUrl (u : RStr) : RStr :=
  if (strOf "http").isPrefixOf u then u else strOf "https://remoteok.com" ++ u

/-- Relative-path rewrite of the `logo` field. -/
def rewriteLogo (l : RStr) : RStr :=
  if (strOf "http").isPrefixOf l then l else strOf "https://remoteok.com/assets/img/jobs/" ++ l

/-- The per-record loop of `fetch_remoteok_jobs` (general path). Records are
pushed and the loop stops once `limit ≤ length` *after* a push; `none`
models a panic from `determine_job_type`. -/
def fetchGeneralLoop (queryParts meaningfulParts fallbackParts : List RStr)
    (isTrendingFlag : Bool) (wanted : Option RStr) (limit : Nat) :
    List Json → List Job → Option (List Job)
  | [], acc => some acc
  | job :: rest, acc =>
    let position := toLowerRS ((jsonStrField job "position").getD [])
    let description := toLowerRS ((jsonStrField job "description").getD [])
    let positionMatches :=
      if isTrendingFlag then
        if meaningfulParts.isEmpty then
          !fallbackParts.isEmpty &&
            fallbackParts.any (fun part =>
              seq_contains position part || seq_contains description part)
        else
          meaningfulParts.any (fun part =>
            seq_contains position part || seq_contains description part)
      else
        !queryParts.isEmpty &&
          queryParts.all (fun part =>
            seq_contains position part || seq_contains description part)
    if !positionMatches then
      fetchGeneralLoop queryParts meaningfulParts fallbackParts isTrendingFlag wanted limit rest acc
    else
      match determine_job_type job with
      | none => none
      | some determined =>
        if !jobTypeFilter determined wanted then
          fetchGeneralLoop queryParts meaningfulParts fallbackParts isTrendingFlag wanted limit rest acc
        else
          let newJob : Job :=
            { id := (jsonStrField job "id").getD (strOf "remoteok_" ++ natStr acc.length)
              title := (jsonStrField job "position").getD []
              employer_name := (jsonStrField job "company").getD []
              location := strOf "Remote"
              description := (jsonStrField job "description").getD []
              apply_url := ((jsonStrField job "url").map rewriteUrl).getD []
              salary_min := (general_salary (jsonStrField job "salary") description).1
              salary_max := (general_salary (jsonStrField job "salary") description).2
              date_posted := jsonStrField job "date"
              remote := true
              job_type := determined
              employer_logo := (jsonStrField job "logo").map rewriteLogo }
          let acc2 := acc ++ [newJob]
          if limit ≤ acc2.length then some acc2
          else fetchGeneralLoop queryParts meaningfulParts fallbackParts isTrendingFlag wanted limit rest acc2

/-- `fetch_remoteok_jobs` (job_service.rs 134-307), from the parsed JSON
array on (`response` is the upstream outcome; index 0 is the sentinel and
is skipped). -/
def fetch_remoteok_jobs (response : Except Unit (List Json)) (query : RStr) (limit : Nat)
    (wanted : Option RStr) (isTrendingFlag : Bool) : Option (Except Unit (List Job)) :=
  match response with
  | .error e => some (.error e)
  | .ok jobsData =>
    let queryParts := splitWS (toLowerRS query)
    let meaningfulParts := queryParts.filter (fun p => !fillerWords.contains p && decide (2 < p.length))
    let fallbackParts := queryParts.filter (fun p => !fillerWords.contains p)
    (fetchGeneralLoop queryParts meaningfulParts fallbackParts isTrendingFlag wanted limit
      (jobsData.drop 1) []).map Except.ok

/-- The per-record loop of `fetch_remoteok_jobs_with_location`. -/
def fetchLocationLoop (queryParts : List RStr) (city locationLower location : RStr)
    (wanted : Option RStr) (limit : Nat) : List Json → List Job → Option (List Job)
  | [], acc => some acc
  | job :: rest, acc =>
    let position := toLowerRS ((jsonStrField job "position").getD [])
    if !queryParts.all (fun part => seq_contains position part) then
      fetchLocationLoop queryParts city locationLower location wanted limit rest acc
    else
      let description := toLowerRS ((jsonStrField job "description").getD [])
      let locationMentioned :=
        seq_contains description city || seq_contains description locationLower ||
        seq_contains position city || seq_contains position locationLower
      if !locationMentioned then
        fetchLocationLoop queryParts city locationLower location wanted limit rest acc
      else
        match determine_job_type job with
        | none => none
        | some determined =>
          if !jobTypeFilter determined wanted then
            fetchLocationLoop queryParts city locationLower location wanted limit rest acc
          else
            let newJob : Job :=
              { id := (jsonStrField job "id").getD (strOf "remoteok_loc_" ++ natStr acc.length)
                title := (jsonStrField job "position").getD []
                employer_name := (jsonStrField job "company").getD []
                location := location ++ strOf " (Remote)"
                description := (jsonStrField job "description").getD []
                apply_url := ((jsonStrField job "url").map rewriteUrl).getD []
                salary_min := (location_salary (jsonStrField job "salary")).1
                salary_max := (location_salary (jsonStrField job "salary")).2
                date_posted := jsonStrField job "date"
                remote := true
                job_type := determined
                employer_logo := (jsonStrField job "logo").map rewriteLogo }
            let acc2 := acc ++ [newJob]
            if limit ≤ acc2.length then some acc2
            else fetchLocationLoop queryParts city locationLower location wanted limit rest acc2

/-- `fetch_remoteok_jobs_with_location` (job_service.rs 309-459). -/
def fetch_remoteok_jobs_with_location (response : Except Unit (List Json)) (query : RStr)
    (limit : Nat) (location : RStr) (wanted : Option RStr) : Option (Except Unit (List Job)) :=
  match response with
  | .error e => some (.error e)
  | .ok jobsData =>
    let queryParts := splitWS (toLowerRS query)
    let locationLower := toLowerRS location
    let city := ((splitComma locationLower).map trimRS).headD locationLower
    (fetchLocationLoop queryParts city locationLower location wanted limit
      (jobsData.drop 1) []).map Except.ok

/-! ## Trending sort (job_service.rs 96-110)

`chrono::DateTime::parse_from_rfc3339` is an external collaborator: it is a
parameter `parseDate` into a linearly ordered date type `D`. Rust's
`sort_by` is a stable sort with a total comparator, so it is modelled by
`List.mergeSort` on `le a b := cmp a b ≠ Greater`. -/

/-- `Ord`-style comparison of a linear order (Rust `Ord::cmp`). -/
def cmpD {D : Type} [LinearOrder D] (a b : D) : Ordering :=
  if a < b then .lt else if a = b then .eq else .gt

/-- Rust's derived `Ord` on `Option` (`None < Some _`). -/
def cmpOptD {D : Type} [LinearOrder D] : Option D → Option D → Ordering
  | none, none => .eq
  | none, some _ => .lt
  | some _, none => .gt
  | some a, some b => cmpD a b

/-- Rust `str::cmp`: lexicographic on the byte sequence, equivalently on
scalar values (UTF-8 order agrees with scalar order). -/
def cmpRStr : RStr → RStr → Ordering
  | [], [] => .eq
  | [], _ :: _ => .lt
  | _ :: _, [] => .gt
  | a :: s, b :: t => (cmpD a b).then (cmpRStr s t)

/-- The comparator of the trending sort (job_service.rs 106):
`b.1.cmp(&a.1).then_with(|| a.0.title.cmp(&b.0.title))`. -/
def trendingCmp {D : Type} [LinearOrder D] (a b : Job × Option D) : Ordering :=
  (cmpOptD b.2 a.2).then (cmpRStr a.1.title b.1.title)

/-- `sort_by` keeps `a` before `b` unless the comparator says Greater. -/
def trendingLe {D : Type} [LinearOrder D] (a b : Job × Option D) : Bool :=
  match trendingCmp a b with
  | .gt => false
  | _ => true

/-- The date key attached to each job before sorting (job_service.rs
100-103). -/
def jobDateKey {D : Type} [LinearOrder D] (parseDate : RStr → Option D) (j : Job) : Option D :=
  j.date_posted.bind parseDate

/-- The trending-mode sort of the general-fetch results (job_service.rs
96-110): tag with parsed dates, stable-sort by date descending with
missing dates last and title ascending as tie-break, drop the tags. -/
def trendingSort {D : Type} [LinearOrder D] (parseDate : RStr → Option D)
    (l : List Job) : List Job :=
  ((l.map (fun j => (j, jobDateKey parseDate j))).mergeSort trendingLe).map Prod.fst

/-! ## Job search aggregation (`handle_job_scraper`, job_service.rs 26-132) -/

/-- The fresh (cache-miss) computation of `handle_job_scraper`
(job_service.rs 67-117): the location-biased phase when a location is
given (an upstream failure degrades it to empty), then the general phase
for the remaining slots when `remote_only` is set, the count is below the
limit, or trending mode is active, with the worldwide relabel and the
trending sort applied to the general results before appending. `none`
models a panic. -/
def fresh_jobs {D : Type} [LinearOrder D] (parseDate : RStr → Option D)
    (locResponse genResponse : Except Unit (List Json)) (cq : RStr)
    (trendingFlag remote_flag : Bool) (limit : Nat) (location : RStr)
    (job_type : Option RStr) : Option (List Job) :=
  let step1 : Option (List Job) :=
    if location.isEmpty then some []
    else
      match fetch_remoteok_jobs_with_location locResponse cq limit location job_type with
      | none => none
      | some (.ok locJobs) => some locJobs
      | some (.error _) => some []
  match step1 with
  | none => none
  | some jobs1 =>
    if remote_flag || decide (jobs1.length < limit) || trendingFlag then
      match fetch_remoteok_jobs genResponse cq (limit - jobs1.length) job_type trendingFlag with
      | none => none
      | some (.error _) => some jobs1
      | some (.ok remoteJobs) =>
        let modified :=
          if !location.isEmpty && jobs1.isEmpty then
            remoteJobs.map (fun j =>
              { j with location :=
                  strOf "Remote (Worldwide, including " ++ location ++ strOf ")" })
          else remoteJobs
        let sorted := if trendingFlag then trendingSort parseDate modified else modified
        some (jobs1 ++ sorted)
    else some jobs1

/-- `handle_job_scraper` (job_service.rs 26-132). `locResponse`/`genResponse`
are the upstream outcomes of the two (sequential) requests; the result is
the returned list together with the cache after the call; `none` models a
panic. The Rust `limit as usize - jobs.len()` underflow corner (reachable
only for `limit = 0`) is modelled by truncated subtraction, matching the
release-build observable behaviour after the final truncate. -/
def handle_job_scraper {D : Type} [LinearOrder D] (parseDate : RStr → Option D)
    (locResponse genResponse : Except Unit (List Json))
    (query : RStr) (limit : Nat) (location : RStr)
    (remote_only : Option Bool) (job_type : Option RStr)
    (cache : CacheMap (List Job)) (now : Nat) :
    Option (List Job × CacheMap (List Job)) :=
  let remote_flag := remote_only.getD false
  let cacheKey := job_cache_key query limit location remote_flag job_type
  match get_cache cache cacheKey now with
  | some jobs => some (jobs, cache)
  | none =>
    match fresh_jobs parseDate locResponse genResponse (clean_query query)
        (is_trending query) remote_flag limit location job_type with
    | none => none
    | some jobs2 =>
      let finalJobs := jobs2.take limit
      some (finalJobs,
        if finalJobs.isEmpty then cache else set_cache cache cacheKey finalJobs now)

/-! ## Video service (`src/services/youtube_service.rs`) -/

/-- The `Video` struct (its Rust field `r#type` is `vtype` here). -/
structure Video where
  title : RStr
  url : RStr
  video_id : RStr
  vtype : RStr
  free : Bool
  image : RStr
  source : RStr
  difficulty : RStr
  description : RStr
deriving DecidableEq

/-- `determine_difficulty` (youtube_service.rs 180-188). -/
def determine_difficulty (title : RStr) : RStr :=
  let lt := toLowerRS title
  if seq_contains lt (strOf "beginner") || seq_contains lt (strOf "basics") ||
     seq_contains lt (strOf "introduction") || seq_contains lt (strOf "101") then
    strOf "beginner"
  else if seq_contains lt (strOf "advanced") || seq_contains lt (strOf "expert") ||
     seq_contains lt (strOf "master") then
    strOf "advanced"
  else strOf "intermediate"

/-- `url.split('?').next().unwrap_or(url)`: the part before the first `?`. -/
def stripUrlParams (url : RStr) : RStr := url.takeWhile (fun c => c ≠ '?')

/-- The per-item loop of `extract_videos_from_html` (youtube_service.rs
84-131): push a record for every item carrying a `videoRenderer` with
non-empty `videoId` and title, stopping once `limit ≤ length` *after* a
push. -/
def extractVideosLoop (limit : Nat) : List Json → List Video → List Video
  | [], acc => acc
  | item :: rest, acc =>
    match item.getField (strOf "videoRenderer") with
    | none => extractVideosLoop limit rest acc
    | some vr =>
      let videoId := (jsonStrField vr "videoId").getD []
      let title :=
        ((vr.getField (strOf "title")).bind (fun t => t.getField (strOf "runs"))
          |>.bind (fun r => r.idx 0) |>.bind (fun r => r.getField (strOf "text"))
          |>.bind Json.asStr).getD []
      let image :=
        (((vr.getField (strOf "thumbnail")).bind (fun t => t.getField (strOf "thumbnails"))
          |>.bind (fun t => t.idx 0) |>.bind (fun t => t.getField (strOf "url"))
          |>.bind Json.asStr).map stripUrlParams).getD []
      if videoId.isEmpty || title.isEmpty then extractVideosLoop limit rest acc
      else
        let v : Video :=
          { title := title
            url := strOf "https://www.youtube.com/watch?v=" ++ videoId
            video_id := videoId
            vtype := strOf "video"
            free := true
            image := image
            source := strOf "YouTube"
            difficulty := determine_difficulty title
            description := [] }
        let acc2 := acc ++ [v]
        if limit ≤ acc2.length then acc2 else extractVideosLoop limit rest acc2

/-- The fixed key path walked down to the item list (youtube_service.rs
72-81). -/
def videoContents (jsonData : Json) : Option Json :=
  (jsonData.getField (strOf "contents")).bind
    (fun c => c.getField (strOf "twoColumnSearchResultsRenderer"))
  |>.bind (fun r => r.getField (strOf "primaryContents"))
  |>.bind (fun p => p.getField (strOf "sectionListRenderer"))
  |>.bind (fun s => s.getField (strOf "contents"))
  |>.bind (fun c => c.idx 0)
  |>.bind (fun c => c.getField (strOf "itemSectionRenderer"))
  |>.bind (fun i => i.getField (strOf "contents"))

/-- `extract_videos_from_html` (youtube_service.rs 66-134), from the parsed
`ytInitialData` on: the `parsed` argument is `none` when the textual
markers are absent or the embedded JSON fails to parse (the string-search
and serde stages), otherwise the parsed JSON object. -/
def extract_videos_from_html (parsed : Option Json) (limit : Nat) :
    Except Unit (List Video) :=
  match parsed with
  | none => .error ()
  | some jsonData =>
    match videoContents jsonData with
    | none => .error ()
    | some (.jarr items) => .ok (extractVideosLoop limit items [])
    | some _ => .ok []

/-- Upstream outcome of the video page request. -/
inductive FetchOutcome where
  | netError
  | badStatus
  | body (parsed : Option Json)

/-- `fetch_youtube_videos` (youtube_service.rs 31-64): any request failure,
extraction failure or empty extraction is an error. -/
def fetch_youtube_videos (outcome : FetchOutcome) (limit : Nat) :
    Except Unit (List Video) :=
  match outcome with
  | .netError => .error ()
  | .badStatus => .error ()
  | .body parsed =>
    match extract_videos_from_html parsed limit with
    | .error e => .error e
    | .ok videos => if videos.isEmpty then .error () else .ok videos

/-- The static keyword → video fallback table (youtube_service.rs 137-142). -/
def fallbackData : List (RStr × RStr × RStr) :=
  [(strOf "docker", strOf "Docker Tutorial for Beginners", strOf "3c-iBn73dDE"),
   (strOf "rust programming", strOf "Rust Programming Course for Beginners", strOf "MsocPEZBd-M"),
   (strOf "python", strOf "Python Tutorial for Beginners", strOf "rfscVS0vtbw"),
   (strOf "javascript", strOf "JavaScript Tutorial for Beginners", strOf "W6NZfCO5SIk")]

/-- The generic default fallback video (youtube_service.rs 163-175). -/
def defaultFallbackVideo : Video :=
  { title := strOf "Learn the Basics"
    url := strOf "https://www.youtube.com/watch?v=dQw4w9WgXcQ"
    video_id := strOf "dQw4w9WgXcQ"
    vtype := strOf "video"
    free := true
    image := strOf "https://i.ytimg.com/vi/dQw4w9WgXcQ/hqdefault.jpg"
    source := strOf "YouTube"
    difficulty := strOf "beginner"
    description := [] }

/-- `get_fallback_videos` (youtube_service.rs 136-178). -/
def get_fallback_videos (query : RStr) : List Video :=
  match fallbackData.find? (fun e => seq_contains (toLowerRS query) e.1) with
  | some (_, title, videoId) =>
    [{ title := title
       url := strOf "https://www.youtube.com/watch?v=" ++ videoId
       video_id := videoId
       vtype := strOf "video"
       free := true
       image := strOf "https://i.ytimg.com/vi/" ++ videoId ++ strOf "/hqdefault.jpg"
       source := strOf "YouTube"
       difficulty := determine_difficulty title
       description := [] }]
  | none => [defaultFallbackVideo]

/-- `handle_youtube_scraper` (youtube_service.rs 22-29): any fetch failure
falls back; the function itself always returns `Ok`. -/
def handle_youtube_scraper (outcome : FetchOutcome) (query : RStr) (limit : Nat) :
    Except Unit (List Video) :=
  match fetch_youtube_videos outcome limit with
  | .ok videos => .ok videos
  | .error _ => .ok (get_fallback_videos query)

/-! ## Claim theorems -/

/-- C3: a value set in the cache at time `T` is returned unchanged by `get`
at every access time `t` with `t − T < 4` hours, and `get` returns absent
once `CACHE_DURATION ≤ t − T`; the expired entry is still stored (treated
as absent on access, not removed). -/
theorem cache_ttl_spec {V : Type} (cache : CacheMap V) (key : RStr) (v : V) (T t : Nat) :
    (t - T < CACHE_DURATION → get_cache (set_cache cache key v T) key t = some v) ∧
    (CACHE_DURATION ≤ t - T → get_cache (set_cache cache key v T) key t = none) ∧
    set_cache cache key v T key = some ⟨v, T⟩ := by
  refine ⟨fun h => ?_, fun h => ?_, ?_⟩
  · simp [get_cache, set_cache, h]
  · have h2 : ¬ (t - T < CACHE_DURATION) := by omega
    simp [get_cache, set_cache, h2]
  · simp [set_cache]

/-- Witness for `cache_ttl_spec` at `T = 0`, `t = 0` (fresh) and
`t = 14400` (expired). -/
theorem cache_ttl_spec_witness :
    (0 - 0 < CACHE_DURATION ∧
      get_cache (set_cache (emptyCache : CacheMap Nat) (strOf "k") 7 0) (strOf "k") 0 = some 7) ∧
    (CACHE_DURATION ≤ 14400 - 0 ∧
      get_cache (set_cache (emptyCache : CacheMap Nat) (strOf "k") 7 0) (strOf "k") 14400 = none) :=
  ⟨⟨by decide, (cache_ttl_spec emptyCache (strOf "k") 7 0 0).1 (by decide)⟩,
   ⟨by decide, (cache_ttl_spec emptyCache (strOf "k") 7 0 14400).2.1 (by decide)⟩⟩

/-- C4 counterexample: detection is case-insensitive but the stripping is
not — `"Trending: rust"` is detected as trending yet its clean term is not
`"rust"` (the claim predicts `"rust"`); and the literal prefix is stripped
repeatedly, so `"trending:trending: rust"` yields `"rust"` where stripping
exactly one prefix would yield `"trending: rust"`. -/
theorem trending_parse_counterexample :
    (is_trending (strOf "Trending: rust") = true ∧
      clean_query (strOf "Trending: rust") ≠ strOf "rust") ∧
    (is_trending (strOf "trending:trending: rust") = true ∧
      clean_query (strOf "trending:trending: rust") = strOf "rust" ∧
      clean_query (strOf "trending:trending: rust") ≠ strOf "trending: rust") := by
  decide

/-- C4 amended: trending mode is detected case-insensitively by a
`"trending:"` or `"trending "` prefix; a non-trending query is returned
unchanged; when detected, all leading occurrences of the *literal lowercase*
prefix are stripped and the result trimmed — so `"trending: rust"` and
`"trending rust"` both yield `"rust"`, `"rust jobs"` is not trending, and a
prefix spelled in a different case is detected but only trimmed, not
stripped. -/
theorem trending_parse_amended :
    (∀ q : RStr, is_trending q =
      (startsWithRS (toLowerRS q) (strOf "trending:") ||
       startsWithRS (toLowerRS q) (strOf "trending "))) ∧
    (∀ q : RStr, is_trending q = false → clean_query q = q) ∧
    (is_trending (strOf "trending: rust") = true ∧
      clean_query (strOf "trending: rust") = strOf "rust") ∧
    (is_trending (strOf "trending rust") = true ∧
      clean_query (strOf "trending rust") = strOf "rust") ∧
    is_trending (strOf "rust jobs") = false ∧
    (is_trending (strOf "Trending: rust") = true ∧
      clean_query (strOf "Trending: rust") = trimRS (strOf "Trending: rust")) := by
  refine ⟨fun q => rfl, fun q h => ?_, by decide, by decide, by decide, by decide⟩
  simp [clean_query, h]

/-- Witness for `trending_parse_amended` at the non-trending query
`"rust jobs"`. -/
theorem trending_parse_amended_witness :
    clean_query (strOf "rust jobs") = strOf "rust jobs" :=
  trending_parse_amended.2.1 (strOf "rust jobs") (by decide)

/-- C2 counterexample: two requests that are semantically identical after
whitespace normalization (`" rust"` vs `"rust"`) derive different cache
keys, and two requests differing only in the letter case of a trending
prefix (`"Trending: rust"` vs `"trending: rust"`) also derive different
keys. -/
theorem cache_key_counterexample :
    job_cache_key (strOf " rust") 10 [] false none ≠
      job_cache_key (strOf "rust") 10 [] false none ∧
    job_cache_key (strOf "Trending: rust") 10 [] false none ≠
      job_cache_key (strOf "trending: rust") 10 [] false none := by
  decide

/-- C2 amended: the cache key is a deterministic function of the request
fields, identical for two requests differing only in the letter case of
query, location or job type provided the query is not in trending form;
surrounding whitespace, however, is preserved (spaces become underscores,
nothing is trimmed), and trending-form queries are stripped
case-sensitively, so such pairs can produce different keys. -/
theorem cache_key_amended (q1 q2 loc1 loc2 : RStr) (jt1 jt2 : Option RStr)
    (limit : Nat) (rf : Bool)
    (hq : toLowerRS q1 = toLowerRS q2)
    (hloc : toLowerRS loc1 = toLowerRS loc2)
    (hjt : toLowerRS (jt1.getD []) = toLowerRS (jt2.getD []))
    (ht : is_trending q1 = false) :
    job_cache_key q1 limit loc1 rf jt1 = job_cache_key q2 limit loc2 rf jt2 := by
  have ht2 : is_trending q2 = false := by
    unfold is_trending at ht ⊢
    rw [← hq]
    exact ht
  unfold job_cache_key clean_query
  rw [ht, ht2]
  simp [hq, hloc, hjt]

/-- Witness for `cache_key_amended`: `"Rust"` in `"NY"` and `"rust"` in
`"ny"` share a cache key. -/
theorem cache_key_amended_witness :
    job_cache_key (strOf "Rust") 5 (strOf "NY") false none =
      job_cache_key (strOf "rust") 5 (strOf "ny") false none :=
  cache_key_amended (strOf "Rust") (strOf "rust") (strOf "NY") (strOf "ny")
    none none 5 false (by decide) (by decide) (by decide) (by decide)

/-- C10: the 20-byte lookback slice in `extract_job_type` is *not*
well-defined for every input: on `"ééééééééééé intern"` the internship
match starts at byte 23, the slice lower bound 3 falls inside the second
`é`, and Rust panics (modelled by `none`); on all-ASCII input such as
`"ascii intern"` the classifier returns normally. -/
theorem intern_lookback_panic :
    extract_job_type (rsToBytes (strOf "ééééééééééé intern")) = none ∧
    extract_job_type (rsToBytes (strOf "ascii intern")) = some (some (strOf "Internship")) := by
  decide

/-- C9: the video search never propagates an error (`handle_youtube_scraper`
always returns `Ok`); on any fetch failure, a query whose lowercased text
contains no recognized fallback keyword yields exactly the single default
fallback record, whose video id is `"dQw4w9WgXcQ"`. -/
theorem video_fallback_spec :
    (∀ (outcome : FetchOutcome) (q : RStr) (limit : Nat),
      (handle_youtube_scraper outcome q limit).isOk = true) ∧
    (∀ (outcome : FetchOutcome) (q : RStr) (limit : Nat),
      (fetch_youtube_videos outcome limit).isOk = false →
      fallbackData.all (fun e => !seq_contains (toLowerRS q) e.1) = true →
      handle_youtube_scraper outcome q limit = .ok [defaultFallbackVideo]) ∧
    defaultFallbackVideo.video_id = strOf "dQw4w9WgXcQ" := by
  refine ⟨fun outcome q limit => ?_, fun outcome q limit hfail hnokw => ?_, rfl⟩
  · unfold handle_youtube_scraper
    cases fetch_youtube_videos outcome limit <;> rfl
  · unfold handle_youtube_scraper
    cases hf : fetch_youtube_videos outcome limit with
    | ok vs => rw [hf] at hfail; simp [Except.isOk, Except.toBool] at hfail
    | error e =>
      have hfind : fallbackData.find? (fun e => seq_contains (toLowerRS q) e.1) = none := by
        apply List.find?_eq_none.mpr
        intro x hx
        have := List.all_eq_true.mp hnokw x hx
        simp at this
        simp [this]
      simp [get_fallback_videos, hfind]

/-- Witness for `video_fallback_spec`: a network failure on query `"zzz"`
returns exactly the default fallback video. -/
theorem video_fallback_spec_witness :
    handle_youtube_scraper FetchOutcome.netError (strOf "zzz") 5 =
      .ok [defaultFallbackVideo] :=
  video_fallback_spec.2.1 FetchOutcome.netError (strOf "zzz") 5 (by decide) (by decide)

/-- C6: salary parsing recognizes, in order, a dollar-anchored numeric
range (→ `(min, max)`), else a single dollar-anchored number
(→ `(value, value)`), else absent/absent, with thousands separators
stripped before the numeric conversion (`ratOfCapture`); and the three
concrete examples of the specification hold. -/
theorem salary_parsing_spec :
    (∀ s : RStr, s ≠ [] →
      (∀ c1 c2, findRangeCaps (replaceAllRS (toLowerRS s) (strOf " a year") []) = some (c1, c2) →
        parse_salary s = (some (ratOfCapture c1), some (ratOfCapture c2))) ∧
      (findRangeCaps (replaceAllRS (toLowerRS s) (strOf " a year") []) = none →
        ∀ c, findSingleCap (replaceAllRS (toLowerRS s) (strOf " a year") []) = some c →
          parse_salary s = (some (ratOfCapture c), some (ratOfCapture c))) ∧
      (findRangeCaps (replaceAllRS (toLowerRS s) (strOf " a year") []) = none →
        findSingleCap (replaceAllRS (toLowerRS s) (strOf " a year") []) = none →
        parse_salary s = (none, none))) ∧
    parse_salary (strOf "$50,000 - $70,000 a year") = (some 50000, some 70000) ∧
    parse_salary (strOf "$85,000") = (some 85000, some 85000) ∧
    parse_salary [] = (none, none) := by
  refine ⟨fun s hs => ⟨fun c1 c2 h => ?_, fun hr c hc => ?_, fun hr hc => ?_⟩,
    by decide, by decide, by decide⟩
  · simp [parse_salary, hs, h]
  · simp [parse_salary, hs, hr, hc]
  · simp [parse_salary, hs, hr, hc]

/-- Witness for `salary_parsing_spec`: `"from $42"` has no range match but
a single match capturing `"42"`. -/
theorem salary_parsing_spec_witness :
    parse_salary (strOf "from $42") =
      (some (ratOfCapture (strOf "42")), some (ratOfCapture (strOf "42"))) :=
  (salary_parsing_spec.1 (strOf "from $42") (by decide)).2.1 (by decide) (strOf "42") (by decide)

/-- C5: job-type classification gives explicit tags priority over the
description text: any tag-cascade hit decides the result with the
description ignored; a `"full_time"` tag always maps to Full-time; the
free-text cascade follows the order Full-time > Part-time > Contract
(> Internship > Temporary > Freelance, the remaining order being the
definition of `extract_job_type`); and a record whose tags include
`"full_time"` classifies Full-time whatever its description (in particular
when it contains `"intern"`). -/
theorem job_type_priority :
    (∀ (tagVals : List Json) (d : RStr),
      (tag_job_type (tagVals.filterMap Json.asStr)).isSome = true →
      determine_job_type
          (Json.jobj [(strOf "tags", Json.jarr tagVals), (strOf "description", Json.jstr d)]) =
        some (tag_job_type (tagVals.filterMap Json.asStr))) ∧
    (∀ tags : List RStr, strOf "full_time" ∈ tags → tag_job_type tags = some (strOf "Full-time")) ∧
    (∀ text : ByteStr, isMatchFullTime (toLowerBytes text) = true →
      extract_job_type text = some (some (strOf "Full-time"))) ∧
    (∀ text : ByteStr, isMatchFullTime (toLowerBytes text) = false →
      isMatchPartTime (toLowerBytes text) = true →
      extract_job_type text = some (some (strOf "Part-time"))) ∧
    (∀ text : ByteStr, isMatchFullTime (toLowerBytes text) = false →
      isMatchPartTime (toLowerBytes text) = false →
      isMatchContract (toLowerBytes text) = true →
      extract_job_type text = some (some (strOf "Contract"))) ∧
    (∀ (tagVals : List Json) (d : RStr),
      Json.jstr (strOf "full_time") ∈ tagVals →
      determine_job_type
          (Json.jobj [(strOf "tags", Json.jarr tagVals), (strOf "description", Json.jstr d)]) =
        some (some (strOf "Full-time"))) := by
  have htag : ∀ tags : List RStr, strOf "full_time" ∈ tags →
      tag_job_type tags = some (strOf "Full-time") := by
    intro tags hmem
    have hany : tags.any
        (fun t => toLowerRS t == strOf "full_time" || toLowerRS t == strOf "full-time") = true := by
      apply List.any_eq_true.mpr
      exact ⟨strOf "full_time", hmem, by decide⟩
    simp [tag_job_type, hany]
  have hdet : ∀ (tagVals : List Json) (d : RStr),
      (tag_job_type (tagVals.filterMap Json.asStr)).isSome = true →
      determine_job_type
          (Json.jobj [(strOf "tags", Json.jarr tagVals), (strOf "description", Json.jstr d)]) =
        some (tag_job_type (tagVals.filterMap Json.asStr)) := by
    intro tagVals d hsome
    cases h : tag_job_type (tagVals.filterMap Json.asStr) with
    | none => rw [h] at hsome; simp at hsome
    | some r =>
      simp [determine_job_type, Json.getField, Json.asArr, List.find?, h]
  refine ⟨hdet, htag, fun text h => ?_, fun text h1 h2 => ?_, fun text h1 h2 h3 => ?_,
    fun tagVals d hmem => ?_⟩
  · simp [extract_job_type, h]
  · simp [extract_job_type, h1, h2]
  · simp [extract_job_type, h1, h2, h3]
  · have hmem2 : strOf "full_time" ∈ tagVals.filterMap Json.asStr := by
      apply List.mem_filterMap.mpr
      exact ⟨Json.jstr (strOf "full_time"), hmem, rfl⟩
    rw [hdet tagVals d (by rw [htag _ hmem2]; rfl), htag _ hmem2]

/-- Witness for `job_type_priority`: a record tagged `"full_time"` whose
description contains `"intern"` classifies Full-time. -/
theorem job_type_priority_witness :
    determine_job_type
        (Json.jobj [(strOf "tags", Json.jarr [Json.jstr (strOf "full_time")]),
          (strOf "description", Json.jstr (strOf "looking for an intern"))]) =
      some (some (strOf "Full-time")) :=
  job_type_priority.2.2.2.2.2 [Json.jstr (strOf "full_time")]
    (strOf "looking for an intern") (List.mem_singleton.mpr rfl)

/-- The record of the C8 counterexample: no `salary` field, a description
carrying a dollar-anchored range. -/
def c8Record : Json :=
  Json.jobj [(strOf "position", Json.jstr (strOf "a")),
    (strOf "description", Json.jstr (strOf "$50,000 - $70,000 a year"))]

/-- C8 counterexample: on the same upstream record with an empty dedicated
salary field and a salary range in the description, the general fetch path
extracts `(50000, 70000)` from the description while the location-biased
path yields absent bounds — the two paths do not share the salary logic. -/
theorem salary_path_counterexample :
    ((fetch_remoteok_jobs (.ok [Json.null, c8Record]) (strOf "a") 1 none false).map
      (fun r => r.toOption.map (fun l => l.map (fun j => (j.salary_min, j.salary_max))))) =
      some (some [(some 50000, some 70000)]) ∧
    ((fetch_remoteok_jobs_with_location (.ok [Json.null, c8Record]) (strOf "a") 1
        (strOf "y") none).map
      (fun r => r.toOption.map (fun l => l.map (fun j => (j.salary_min, j.salary_max))))) =
      some (some [(none, none)]) := by
  decide

/-- C8 amended: the general fetch path takes the salary string from the
dedicated field and, when that field is absent or empty, extracts a
dollar-anchored range from the (lowercased) description before parsing;
the location-biased path parses only the dedicated field and reports
absent bounds when it is missing, never consulting the description. -/
theorem salary_path_amended :
    (∀ (sf : Option RStr) (d : RStr), sf = none ∨ sf = some [] →
      general_salary sf d = parse_salary (general_salary_text none d) ∧
      general_salary_text sf d =
        (match findRangeCaps d with
         | some (c1, c2) => strOf "$" ++ c1 ++ strOf " - $" ++ c2
         | none => [])) ∧
    (∀ (sf : RStr) (d : RStr), sf ≠ [] → general_salary (some sf) d = parse_salary sf) ∧
    (∀ s : RStr, location_salary (some s) = parse_salary s) ∧
    location_salary none = (none, none) := by
  refine ⟨fun sf d hsf => ?_, fun sf d hsf => ?_, fun s => rfl, rfl⟩
  · rcases hsf with h | h <;> subst h <;>
      simp [general_salary, general_salary_text]
  · simp [general_salary, general_salary_text, hsf]

/-- Witness for `salary_path_amended` on a missing dedicated field and the
description `"$1 - $2"`. -/
theorem salary_path_amended_witness :
    general_salary none (strOf "$1 - $2") = parse_salary (general_salary_text none (strOf "$1 - $2")) ∧
    general_salary (some (strOf "$9")) [] = parse_salary (strOf "$9") :=
  ⟨(salary_path_amended.1 none (strOf "$1 - $2") (Or.inl rfl)).1,
   salary_path_amended.2.1 (strOf "$9") [] (by decide)⟩

/-- Upstream job record used by the C1 counterexample run. -/
def c1Record : Json := Json.jobj [(strOf "position", Json.jstr (strOf "rust 5 x"))]

/-- Upstream response of the C1 counterexample run: sentinel plus six
matching records. -/
def c1Data : List Json :=
  [Json.null, c1Record, c1Record, c1Record, c1Record, c1Record, c1Record]

/-- One search-result item carrying a `videoRenderer`. -/
def c1VideoItem : Json :=
  Json.jobj [(strOf "videoRenderer", Json.jobj
    [(strOf "videoId", Json.jstr (strOf "abc123")),
     (strOf "title", Json.jobj
       [(strOf "runs", Json.jarr [Json.jobj [(strOf "text", Json.jstr (strOf "T"))]])])])]

/-- A parsed `ytInitialData` document holding exactly one video item. -/
def c1VideoJson : Json :=
  Json.jobj [(strOf "contents", Json.jobj
    [(strOf "twoColumnSearchResultsRenderer", Json.jobj
      [(strOf "primaryContents", Json.jobj
        [(strOf "sectionListRenderer", Json.jobj
          [(strOf "contents", Json.jarr [Json.jobj
            [(strOf "itemSectionRenderer", Json.jobj
              [(strOf "contents", Json.jarr [c1VideoItem])])]])])])])])]

theorem limit_claim_counterexample :
    ((handle_job_scraper (fun _ => (none : Option Int)) (.error ()) (.error ())
        (strOf "rust") 5 (strOf "10 x") none none
        (((handle_job_scraper (fun _ => (none : Option Int)) (.ok c1Data) (.ok c1Data)
            (strOf "rust 5") 10 (strOf "x") none none emptyCache 0).map Prod.snd).getD
          emptyCache) 0).map
      (fun p => p.1.length) = some 10 ∧ 5 < 10) ∧
    (((handle_youtube_scraper (FetchOutcome.body (some c1VideoJson)) (strOf "q") 0).toOption.map
      List.length) = some 1 ∧ 0 < 1) := by
  decide

theorem extractVideosLoop_length_le (limit : Nat) (items : List Json) (acc : List Video)
    (h : acc.length < limit) : (extractVideosLoop limit items acc).length ≤ limit := by
  induction items generalizing acc with
  | nil => simpa [extractVideosLoop] using Nat.le_of_lt h
  | cons item rest ih =>
    simp only [extractVideosLoop]
    cases hvr : item.getField (strOf "videoRenderer") with
    | none => exact ih acc h
    | some vr =>
      simp only []
      split
      · exact ih acc h
      · split
        · next hle =>
          simp only [List.length_append, List.length_cons, List.length_nil] at hle ⊢
          omega
        · next hle =>
          apply ih
          simp only [List.length_append, List.length_cons, List.length_nil] at hle ⊢
          omega

theorem get_fallback_videos_length (q : RStr) : (get_fallback_videos q).length = 1 := by
  unfold get_fallback_videos
  cases h : fallbackData.find? (fun e => seq_contains (toLowerRS q) e.1) with
  | none => rfl
  | some e =>
    obtain ⟨a, b, c⟩ := e
    rfl

/-- C1 amended: a job search whose cache lookup misses returns at most
`limit` records (the merged list is truncated); a cache hit returns the
stored list verbatim, which can exceed the current request's limit because
distinct requests can collide on one cache key.  A video search returns at
most `limit` records whenever `limit ≥ 1`; at `limit = 0` both the success
loop (push before check) and the fallback can return one record. -/
theorem limit_amended {D : Type} [inst : LinearOrder D] :
    (∀ (parseDate : RStr → Option D) (locR genR : Except Unit (List Json)) (q : RStr)
        (limit : Nat) (loc : RStr) (ro : Option Bool) (jt : Option RStr)
        (cache : CacheMap (List Job)) (now : Nat) (res : List Job)
        (cache2 : CacheMap (List Job)),
      handle_job_scraper parseDate locR genR q limit loc ro jt cache now = some (res, cache2) →
      (get_cache cache (job_cache_key q limit loc (ro.getD false) jt) now = none →
        res.length ≤ limit) ∧
      (∀ v, get_cache cache (job_cache_key q limit loc (ro.getD false) jt) now = some v →
        res = v)) ∧
    (∀ (outcome : FetchOutcome) (q : RStr) (limit : Nat) (vs : List Video),
      1 ≤ limit → handle_youtube_scraper outcome q limit = .ok vs → vs.length ≤ limit) := by
  constructor
  · intro parseDate locR genR q limit loc ro jt cache now res cache2 h
    constructor
    · intro hmiss
      cases hf : fresh_jobs parseDate locR genR (clean_query q) (is_trending q)
          (ro.getD false) limit loc jt with
      | none =>
        simp only [handle_job_scraper, hmiss, hf] at h
        exact Option.noConfusion h
      | some jobs2 =>
        simp only [handle_job_scraper, hmiss, hf] at h
        injection h with h1
        have hres : List.take limit jobs2 = res := congrArg Prod.fst h1
        rw [← hres, List.length_take]
        exact min_le_left _ _
    · intro v hv
      simp only [handle_job_scraper, hv] at h
      injection h with h1
      exact (congrArg Prod.fst h1).symm
  · intro outcome q limit vs h1 h2
    unfold handle_youtube_scraper at h2
    cases hf : fetch_youtube_videos outcome limit with
    | error e =>
      rw [hf] at h2
      injection h2 with h3
      rw [← h3, get_fallback_videos_length]
      exact h1
    | ok vs2 =>
      rw [hf] at h2
      injection h2 with h3
      subst h3
      cases outcome with
      | netError => exact absurd hf (by simp [fetch_youtube_videos])
      | badStatus => exact absurd hf (by simp [fetch_youtube_videos])
      | body parsed =>
        cases parsed with
        | none =>
          exact absurd hf (by simp [fetch_youtube_videos, extract_videos_from_html])
        | some jsonData =>
          cases hc : videoContents jsonData with
          | none =>
            simp only [fetch_youtube_videos, extract_videos_from_html, hc] at hf
            exact Except.noConfusion hf
          | some c =>
            cases c with
            | jarr items =>
              simp only [fetch_youtube_videos, extract_videos_from_html, hc] at hf
              split at hf
              · exact Except.noConfusion hf
              · injection hf with h4
                rw [← h4]
                exact extractVideosLoop_length_le limit items [] (by simpa using h1)
            | null =>
              simp [fetch_youtube_videos, extract_videos_from_html, hc] at hf
            | jbool b =>
              simp [fetch_youtube_videos, extract_videos_from_html, hc] at hf
            | jnum n =>
              simp [fetch_youtube_videos, extract_videos_from_html, hc] at hf
            | jstr s =>
              simp [fetch_youtube_videos, extract_videos_from_html, hc] at hf
            | jobj fields =>
              simp [fetch_youtube_videos, extract_videos_from_html, hc] at hf

/-! ### Comparator lemmas for the trending sort -/

theorem thenSwap (o p : Ordering) : (o.then p).swap = o.swap.then p.swap := by
  cases o <;> rfl

theorem thenEqEqIff (o p : Ordering) : o.then p = .eq ↔ o = .eq ∧ p = .eq := by
  cases o <;> simp [Ordering.then]

theorem thenNeGtIff (o p : Ordering) : o.then p ≠ .gt ↔ o = .lt ∨ (o = .eq ∧ p ≠ .gt) := by
  cases o <;> simp [Ordering.then]

theorem cmpD_lt_iff {D : Type} [LinearOrder D] {a b : D} : cmpD a b = .lt ↔ a < b := by
  unfold cmpD
  split_ifs with h1 h2 <;> simp [h1]

theorem cmpD_eq_iff {D : Type} [LinearOrder D] {a b : D} : cmpD a b = .eq ↔ a = b := by
  unfold cmpD
  split_ifs with h1 h2
  · simp [ne_of_lt h1]
  · simp [h2]
  · simp [h2]

theorem cmpD_swap {D : Type} [LinearOrder D] {a b : D} : (cmpD a b).swap = cmpD b a := by
  rcases lt_trichotomy a b with h | h | h
  · rw [cmpD_lt_iff.mpr h]
    have hba : cmpD b a = .gt := by
      unfold cmpD
      rw [if_neg (lt_asymm h), if_neg (ne_of_gt h)]
    rw [hba]
    rfl
  · subst h
    rw [cmpD_eq_iff.mpr rfl]
    rfl
  · have hab : cmpD a b = .gt := by
      unfold cmpD
      rw [if_neg (lt_asymm h), if_neg (ne_of_gt h)]
    rw [hab, cmpD_lt_iff.mpr h]
    rfl

theorem cmpD_ne_gt_iff {D : Type} [LinearOrder D] {a b : D} : cmpD a b ≠ .gt ↔ a ≤ b := by
  rcases lt_trichotomy a b with h | h | h
  · simp [cmpD_lt_iff.mpr h, le_of_lt h]
  · subst h
    simp [cmpD_eq_iff.mpr rfl]
  · have hab : cmpD a b = .gt := by
      unfold cmpD
      rw [if_neg (lt_asymm h), if_neg (ne_of_gt h)]
    simp [hab, not_le.mpr h]

theorem cmpOptD_eq_iff {D : Type} [LinearOrder D] {x y : Option D} :
    cmpOptD x y = .eq ↔ x = y := by
  cases x <;> cases y <;> simp [cmpOptD, cmpD_eq_iff]

theorem cmpOptD_swap {D : Type} [LinearOrder D] {x y : Option D} :
    (cmpOptD x y).swap = cmpOptD y x := by
  cases x <;> cases y
  · rfl
  · rfl
  · rfl
  · exact cmpD_swap

theorem cmpOptD_lt_trans {D : Type} [LinearOrder D] {x y z : Option D} :
    cmpOptD x y = .lt → cmpOptD y z = .lt → cmpOptD x z = .lt := by
  cases x <;> cases y <;> cases z <;> simp [cmpOptD, cmpD_lt_iff]
  exact fun h1 h2 => lt_trans h1 h2

theorem cmpRStr_eq_iff : ∀ {s t : RStr}, cmpRStr s t = .eq ↔ s = t
  | [], [] => by simp [cmpRStr]
  | [], _ :: _ => by simp [cmpRStr]
  | _ :: _, [] => by simp [cmpRStr]
  | a :: s, b :: t => by
    simp [cmpRStr, thenEqEqIff, cmpD_eq_iff, cmpRStr_eq_iff]

theorem cmpRStr_swap : ∀ (s t : RStr), (cmpRStr s t).swap = cmpRStr t s
  | [], [] => rfl
  | [], _ :: _ => rfl
  | _ :: _, [] => rfl
  | a :: s, b :: t => by
    simp [cmpRStr, thenSwap, cmpD_swap, cmpRStr_swap s t]

theorem cmpRStr_le_trans : ∀ (s t u : RStr),
    cmpRStr s t ≠ .gt → cmpRStr t u ≠ .gt → cmpRStr s u ≠ .gt
  | [], _, u => fun _ _ => by cases u <;> simp [cmpRStr]
  | _ :: _, [], _ => fun h1 _ => (h1 rfl).elim
  | _ :: _, _ :: _, [] => fun _ h2 => (h2 rfl).elim
  | a :: s, b :: t, c :: u => fun h1 h2 => by
    rw [cmpRStr, thenNeGtIff] at h1 h2 ⊢
    rcases h1 with h1l | ⟨h1e, h1r⟩ <;> rcases h2 with h2l | ⟨h2e, h2r⟩
    · exact Or.inl (cmpD_lt_iff.mpr (lt_trans (cmpD_lt_iff.mp h1l) (cmpD_lt_iff.mp h2l)))
    · rw [cmpD_eq_iff] at h2e
      rw [← h2e]
      exact Or.inl h1l
    · rw [cmpD_eq_iff] at h1e
      rw [h1e]
      exact Or.inl h2l
    · rw [cmpD_eq_iff] at h1e h2e
      refine Or.inr ⟨cmpD_eq_iff.mpr (h1e.trans h2e), cmpRStr_le_trans s t u h1r h2r⟩

theorem trendingLe_eq_true_iff {D : Type} [LinearOrder D] {a b : Job × Option D} :
    trendingLe a b = true ↔ trendingCmp a b ≠ .gt := by
  unfold trendingLe
  cases h : trendingCmp a b <;> simp

theorem trendingCmp_swap {D : Type} [LinearOrder D] (a b : Job × Option D) :
    (trendingCmp a b).swap = trendingCmp b a := by
  unfold trendingCmp
  rw [thenSwap, cmpOptD_swap, cmpRStr_swap]

theorem trendingLe_trans {D : Type} [LinearOrder D] (a b c : Job × Option D)
    (h1 : trendingLe a b = true) (h2 : trendingLe b c = true) : trendingLe a c = true := by
  rw [trendingLe_eq_true_iff] at h1 h2 ⊢
  unfold trendingCmp at h1 h2 ⊢
  rw [thenNeGtIff] at h1 h2 ⊢
  rcases h1 with h1l | ⟨h1e, h1r⟩ <;> rcases h2 with h2l | ⟨h2e, h2r⟩
  · exact Or.inl (cmpOptD_lt_trans h2l h1l)
  · rw [cmpOptD_eq_iff] at h2e
    rw [h2e]
    exact Or.inl h1l
  · rw [cmpOptD_eq_iff] at h1e
    rw [← h1e]
    exact Or.inl h2l
  · rw [cmpOptD_eq_iff] at h1e h2e
    refine Or.inr ⟨cmpOptD_eq_iff.mpr (h2e.trans h1e), cmpRStr_le_trans _ _ _ h1r h2r⟩

theorem trendingLe_total {D : Type} [LinearOrder D] (a b : Job × Option D) :
    (trendingLe a b || trendingLe b a) = true := by
  rcases h : trendingCmp a b with hlt | heq | hgt
  · have : trendingLe a b = true := trendingLe_eq_true_iff.mpr (by simp [h])
    simp [this]
  · have : trendingLe a b = true := trendingLe_eq_true_iff.mpr (by simp [h])
    simp [this]
  · have hba : trendingCmp b a = .lt := by
      rw [← trendingCmp_swap a b, h]
      rfl
    have : trendingLe b a = true := trendingLe_eq_true_iff.mpr (by simp [hba])
    simp [this]

/-- Witness for `limit_amended`: a cache-missing job search over failing
upstreams returns the empty list (≤ 5), and a failing video fetch at
limit 1 returns the one fallback record (≤ 1). -/
theorem limit_amended_witness :
    ([] : List Job).length ≤ 5 ∧ (get_fallback_videos (strOf "zzz")).length ≤ 1 :=
  ⟨((@limit_amended Int _).1 (fun _ => none) (.error ()) (.error ()) (strOf "q") 5 []
      none none emptyCache 0 [] emptyCache rfl).1 rfl,
   (@limit_amended Int _).2 FetchOutcome.netError (strOf "zzz") 1
     (get_fallback_videos (strOf "zzz")) (by decide) rfl⟩

/-- C7: in trending mode the general-fetch results are sorted by parsed
post date descending — every record whose date is missing or unparseable
comes after every record with a parseable date — and any two records with
equal parsed date keys (including both missing) are ordered by ascending
title; the sorted list is a permutation of the input. -/
theorem trending_sort_spec {D : Type} [inst : LinearOrder D]
    (parseDate : RStr → Option D) (l : List Job) :
    (trendingSort parseDate l).Perm l ∧
    List.Pairwise (fun x y =>
      (jobDateKey parseDate x = none → jobDateKey parseDate y = none) ∧
      (∀ a b, jobDateKey parseDate x = some a → jobDateKey parseDate y = some b → b ≤ a) ∧
      (jobDateKey parseDate x = jobDateKey parseDate y → cmpRStr x.title y.title ≠ .gt))
      (trendingSort parseDate l) := by
  have hmapid : (l.map (fun j => (j, jobDateKey parseDate j))).map Prod.fst = l := by
    rw [List.map_map]
    exact List.map_id l
  constructor
  · have hperm :=
      (List.mergeSort_perm (l.map (fun j => (j, jobDateKey parseDate j))) trendingLe).map Prod.fst
    rw [hmapid] at hperm
    unfold trendingSort
    exact hperm
  · have hsorted :=
      List.sorted_mergeSort trendingLe_trans trendingLe_total
        (l.map (fun j => (j, jobDateKey parseDate j)))
    unfold trendingSort
    rw [List.pairwise_map]
    refine List.Pairwise.imp_of_mem ?_ hsorted
    intro p q hp hq hle
    have hp2 : p.2 = jobDateKey parseDate p.1 := by
      have hmem := ((List.mergeSort_perm _ trendingLe).mem_iff).mp hp
      rcases List.mem_map.mp hmem with ⟨j, _, hj⟩
      rw [← hj]
    have hq2 : q.2 = jobDateKey parseDate q.1 := by
      have hmem := ((List.mergeSort_perm _ trendingLe).mem_iff).mp hq
      rcases List.mem_map.mp hmem with ⟨j, _, hj⟩
      rw [← hj]
    rw [trendingLe_eq_true_iff] at hle
    unfold trendingCmp at hle
    rw [thenNeGtIff, hp2, hq2] at hle
    refine ⟨?_, ?_, ?_⟩
    · intro hpn
      rcases hle with hl | ⟨he, _⟩
      · rw [hpn] at hl
        cases hq3 : jobDateKey parseDate q.1 with
        | none => rfl
        | some b =>
          rw [hq3] at hl
          exact absurd hl (by simp [cmpOptD])
      · rw [cmpOptD_eq_iff] at he
        rw [he, hpn]
    · intro a b hpa hqb
      rcases hle with hl | ⟨he, _⟩
      · rw [hpa, hqb] at hl
        exact le_of_lt (cmpD_lt_iff.mp hl)
      · rw [cmpOptD_eq_iff, hpa, hqb] at he
        exact le_of_eq (Option.some.inj he)
    · intro hpq
      rcases hle with hl | ⟨_, ht⟩
      · have heq2 : cmpOptD (jobDateKey parseDate q.1) (jobDateKey parseDate p.1) = .eq :=
          cmpOptD_eq_iff.mpr hpq.symm
        rw [heq2] at hl
        exact Ordering.noConfusion hl
      · exact ht
